import Mathlib

/-!
Verification of the cursor-analyzer video tool (src/cursor-analyzer/src/main.rs).

The development shallowly embeds the pure logic of the program:

* the marker detector `find_position` (main.rs, lines 421-480), with byte
  buffers as `List Nat` (bytes, values 0..255) and coordinates as `Nat`
  pairs (the Rust code returns the same integers cast losslessly to `f32`);
* the frame-buffer constructor `from_raw` (the `image` crate's
  `RgbaImage::from_raw`, modelled from the spec since the crate's source is
  not part of this repository);
* the stderr-scraping metadata prober `probe_file` (lines 379-414), with the
  two regexes embedded as explicit matching functions over `List Char` and
  `f64` durations modelled as exact rationals `ℚ`;
* the worker state machine `VideoWorker` (lines 235-377), with the external
  world (the ffmpeg process table, spawn outcomes, probe output and the raw
  byte stream) supplied through an explicit oracle, and the OS process table
  tracked alongside the worker so that process-lifetime invariants can be
  stated.
-/

/-! ### Marker detector (`find_position`, main.rs 421-480) -/

/-- Bright threshold `lim_max` from `find_position`. -/
def limMax : Nat := 210

/-- Dark threshold `lim_min` from `find_position`. -/
def limMin : Nat := 90

/-- Bytes per pixel, `px_for_col` in `find_position`. -/
def pxForCol : Nat := 4

/-- One iteration of the vertical-column check (`for j in 1..14` loop of
`find_position`): the pixel `j` rows below the candidate must exist and have
all three colour channels strictly above `lim_max`. -/
def vertOk (data : List Nat) (pxRow i j : Nat) : Bool :=
  let idx := i + j * pxRow
  decide (idx + 2 < data.length) &&
  decide (limMax < data.getD idx 0) &&
  decide (limMax < data.getD (idx + 1) 0) &&
  decide (limMax < data.getD (idx + 2) 0)

/-- The whole vertical-column check of `find_position` (`valid_vertical`). -/
def validVertical (data : List Nat) (pxRow i : Nat) : Bool :=
  (List.range' 1 13).all (vertOk data pxRow i)

/-- One iteration of the dark-left-border check (`for j in 0..14` loop of
`find_position`): the byte offset one pixel to the left (`base - px_for_col`)
must be representable (no underflow), in bounds, and all three colour
channels there must be below `lim_min`. -/
def leftOk (data : List Nat) (pxRow i j : Nat) : Bool :=
  let base := i + j * pxRow
  decide (pxForCol ≤ base) &&
  (let idx := base - pxForCol
   decide (idx + 2 < data.length) &&
   decide (data.getD idx 0 < limMin) &&
   decide (data.getD (idx + 1) 0 < limMin) &&
   decide (data.getD (idx + 2) 0 < limMin))

/-- The whole dark-left-border check of `find_position` (`valid_left`). -/
def validLeft (data : List Nat) (pxRow i : Nat) : Bool :=
  (List.range 14).all (leftOk data pxRow i)

/-- The per-candidate classifier of `find_position` at byte offset `i`,
mirroring the chain of early `continue`s in the Rust loop body: bounds check,
bright core (`>= lim_max` on all three channels), bounds check for the right
neighbour, dark right neighbour (no channel `>= lim_min`), the vertical
column check, and the dark-left-border check. -/
def isMarkerAt (data : List Nat) (pxRow i : Nat) : Bool :=
  if data.length ≤ i + 2 then false
  else if ¬ (limMax ≤ data.getD i 0 ∧ limMax ≤ data.getD (i + 1) 0 ∧
             limMax ≤ data.getD (i + 2) 0) then false
  else if data.length ≤ i + pxForCol + 2 then false
  else if limMin ≤ data.getD (i + pxForCol) 0 ∨
          limMin ≤ data.getD (i + pxForCol + 1) 0 ∨
          limMin ≤ data.getD (i + pxForCol + 2) 0 then false
  else if ¬ validVertical data pxRow i then false
  else if ¬ validLeft data pxRow i then false
  else true

/-- The scan loop `for i in (0..limit).step_by(4)` of `find_position`,
written with an explicit fuel argument so that the recursion is structural
(the caller passes enough fuel for the whole range; each iteration either
returns or advances `i` by 4). -/
def findPosLoop (data : List Nat) (pxRow limit : Nat) : Nat → Nat → Option (Nat × Nat)
  | 0, _ => none
  | fuel + 1, i =>
    if i < limit then
      if isMarkerAt data pxRow i then
        let x := i % pxRow
        some (x / 4, (i - x) / pxRow)
      else
        findPosLoop data pxRow limit fuel (i + 4)
    else
      none

/-- `find_position` (main.rs 421-480): scans the buffer in row-major byte
order, stepping one pixel (4 bytes) at a time, over the range that excludes
the last 20 rows (`saturating_sub`, which is `Nat` subtraction), and returns
the first matching candidate as a pixel coordinate `(x / 4, y)`. The unused
`_height` parameter is kept from the Rust signature. -/
def find_position (data : List Nat) (width _height : Nat) : Option (Nat × Nat) :=
  let pxForRow := width * 4
  let limit := data.length - 20 * pxForRow
  findPosLoop data pxForRow limit (limit + 1) 0

/-- Synthetic frame buffer: `width`×`height` RGBA pixels, with a 1-pixel-wide
14-row-tall column of `(255,255,255,255)` at pixel column `xcol` starting at
row 0, and `(0,0,0,0)` everywhere else. -/
def mkColBuf (width height xcol : Nat) : List Nat :=
  (List.range (width * height * 4)).map
    (fun b => if (b / 4) % width = xcol ∧ b / (width * 4) < 14 then 255 else 0)

/-! ### A checked interpretation of `find_position`

`find_positionC` re-runs the same algorithm, but every Rust operation that
can panic is made explicit: slice indexing `data[idx]` becomes `data[idx]?`,
and the final `%` and `/` by `px_for_row` are guarded by a zero test. The
outer `Option` is `none` exactly when the Rust code would panic; `some r`
means the code runs to completion without panicking and returns `r`. -/

/-- Checked version of `vertOk`: indexes via `List.getElem?` after the same
bounds test the Rust loop performs. -/
def vertOkC (data : List Nat) (pxRow i j : Nat) : Option Bool :=
  let idx := i + j * pxRow
  if data.length ≤ idx + 2 then some false
  else do
    let a ← data[idx]?
    let b ← data[idx + 1]?
    let c ← data[idx + 2]?
    pure (decide (limMax < a) && decide (limMax < b) && decide (limMax < c))

/-- Checked version of `leftOk`: the `base - px_for_col` subtraction is only
taken after the `base < px_for_col` guard, as in the Rust loop. -/
def leftOkC (data : List Nat) (pxRow i j : Nat) : Option Bool :=
  let base := i + j * pxRow
  if base < pxForCol then some false
  else
    let idx := base - pxForCol
    if data.length ≤ idx + 2 then some false
    else do
      let a ← data[idx]?
      let b ← data[idx + 1]?
      let c ← data[idx + 2]?
      pure (decide (a < limMin) && decide (b < limMin) && decide (c < limMin))

/-- Checked version of `isMarkerAt`. -/
def isMarkerAtC (data : List Nat) (pxRow i : Nat) : Option Bool :=
  if data.length ≤ i + 2 then some false
  else do
    let a ← data[i]?
    let b ← data[i + 1]?
    let c ← data[i + 2]?
    if decide (limMax ≤ a) && decide (limMax ≤ b) && decide (limMax ≤ c) then
      if data.length ≤ i + pxForCol + 2 then pure false
      else do
        let r0 ← data[i + pxForCol]?
        let r1 ← data[i + pxForCol + 1]?
        let r2 ← data[i + pxForCol + 2]?
        if decide (limMin ≤ r0) || decide (limMin ≤ r1) || decide (limMin ≤ r2) then
          pure false
        else do
          let vv ← (List.range' 1 13).allM (vertOkC data pxRow i)
          if vv then
            (List.range 14).allM (leftOkC data pxRow i)
          else
            pure false
    else
      pure false

/-- Checked version of `findPosLoop`: on a match, the coordinate computation
`i % px_for_row` and `(i - x) / px_for_row` panics when `px_for_row = 0`
(division/remainder by zero), which the checked semantics reports as `none`. -/
def findPosLoopC (data : List Nat) (pxRow limit : Nat) :
    Nat → Nat → Option (Option (Nat × Nat))
  | 0, _ => some none
  | fuel + 1, i =>
    if i < limit then
      match isMarkerAtC data pxRow i with
      | none => none
      | some true =>
        if pxRow = 0 then none
        else
          let x := i % pxRow
          some (some (x / 4, (i - x) / pxRow))
      | some false => findPosLoopC data pxRow limit fuel (i + 4)
    else
      some none

/-- Checked version of `find_position`; `data.len().saturating_sub ...` is
explicitly saturating in Rust and cannot panic. -/
def find_positionC (data : List Nat) (width _height : Nat) : Option (Option (Nat × Nat)) :=
  let pxForRow := width * 4
  let limit := data.length - 20 * pxForRow
  findPosLoopC data pxForRow limit (limit + 1) 0

/-! ### Frame codec (`RgbaImage::from_raw`) -/

/-- The structured frame buffer (the `image` crate's `RgbaImage` as used by
the worker: a width, a height, and the raw bytes). -/
structure RgbaImage where
  width : Nat
  height : Nat
  data : List Nat
  deriving DecidableEq

/-- Modelled from the spec: `RgbaImage::from_raw` — the Frame Codec — is not
part of this repository's sources (it lives in the external `image` crate);
per the spec it wraps raw bytes into a structured frame buffer object of
known width/height, "validating only that length equals `width*height*4`",
performs no transformation of the pixel data, and refuses construction if
the byte count mismatches. -/
def from_raw (w h : Nat) (buf : List Nat) : Option RgbaImage :=
  if buf.length = w * h * 4 then some { width := w, height := h, data := buf }
  else none

/-! ### Metadata prober (`probe_file`, main.rs 379-414)

The prober spawns the decoder, captures its stderr as text, and scrapes it
with two regexes:

* `Duration: (\d{2}):(\d{2}):(\d{2}\.\d+)` — leftmost match; the three
  captures are parsed as numbers and combined as `h*3600 + m*60 + s`;
* `Video:.* (\d{3,})x(\d{3,})` — leftmost-first match semantics of the Rust
  `regex` crate: the match starts at the leftmost occurrence of `Video:`
  from which the rest of the pattern can succeed; `.` does not match `'\n'`
  and `.*` is greedy, so the captured ` WxH` group is the rightmost one on
  that line; each `\d{3,}` is a maximal digit run of length at least 3
  (a run can only be followed by the literal `x` at its maximal end, because
  the characters inside the run are digits). `parse::<u32>()` fails above
  `u32::MAX` and the failure is collapsed to 0 by `unwrap_or(0)`.

Durations (`f64` in Rust) are modelled as exact rationals `ℚ`. -/

/-- Decimal digit test, the `\d` character class. -/
def isDigitCh (c : Char) : Bool := decide ('0' ≤ c) && decide (c ≤ '9')

/-- Numeric value of a digit character. -/
def digitVal (c : Char) : Nat := c.toNat - '0'.toNat

/-- Numeric value of a digit string. -/
def digitsVal (l : List Char) : Nat := l.foldl (fun a c => a * 10 + digitVal c) 0

/-- `caps[k].parse::<u32>().unwrap_or(0)`: a digit string parses to its value
when it fits in a `u32` and collapses to 0 on overflow. -/
def parseU32 (l : List Char) : Nat :=
  if digitsVal l < 4294967296 then digitsVal l else 0

/-- Attempt the duration regex at the start of `s`: the literal
`Duration: `, then `\d{2}:\d{2}:\d{2}\.\d+` with the greedy `\d+` taking the
maximal digit run. Returns the capture groups: parsed hours and minutes, and
the seconds capture `\d{2}\.\d+` split into its integer part and its
fraction digits. -/
def matchDurAt : List Char → Option (Nat × Nat × Nat × List Char)
  | 'D' :: 'u' :: 'r' :: 'a' :: 't' :: 'i' :: 'o' :: 'n' :: ':' :: ' ' ::
      h1 :: h2 :: ':' :: m1 :: m2 :: ':' :: s1 :: s2 :: '.' :: rest =>
    if isDigitCh h1 && isDigitCh h2 && isDigitCh m1 && isDigitCh m2 &&
       isDigitCh s1 && isDigitCh s2 then
      let frac := rest.takeWhile isDigitCh
      if frac = [] then none
      else
        some (digitVal h1 * 10 + digitVal h2,
              digitVal m1 * 10 + digitVal m2,
              digitVal s1 * 10 + digitVal s2,
              frac)
    else none
  | _ => none

/-- Leftmost match of the duration regex: try every start position from the
left and take the first that succeeds. -/
def findDuration : List Char → Option (Nat × Nat × Nat × List Char)
  | [] => none
  | c :: rest =>
    match matchDurAt (c :: rest) with
    | some v => some v
    | none => findDuration rest

/-- Attempt the tail ` (\d{3,})x(\d{3,})` of the video regex at the start of
`s`: a space, a maximal digit run of length ≥ 3, the literal `x`, and a
second maximal digit run of length ≥ 3. Returns the two digit strings. -/
def matchResAt : List Char → Option (List Char × List Char)
  | [] => none
  | c :: rest =>
    if c = ' ' then
      let ds := rest.takeWhile isDigitCh
      if 3 ≤ ds.length then
        match rest.dropWhile isDigitCh with
        | [] => none
        | c2 :: rest2 =>
          if c2 = 'x' then
            let ds2 := rest2.takeWhile isDigitCh
            if 3 ≤ ds2.length then some (ds, ds2) else none
          else none
      else none
    else none

/-- The rightmost position in `l` where ` (\d{3,})x(\d{3,})` matches — the
greedy `.*` hands the capture to the last such position on the line. -/
def lastResMatch : List Char → Option (List Char × List Char)
  | [] => none
  | c :: rest =>
    match lastResMatch rest with
    | some v => some v
    | none => matchResAt (c :: rest)

/-- Literal-prefix test. -/
def startsWithL : List Char → List Char → Bool
  | [], _ => true
  | _ :: _, [] => false
  | p :: ps, c :: cs => decide (c = p) && startsWithL ps cs

/-- Attempt the video regex at the start of `s`: the literal `Video:`, then
(since `.` cannot cross a newline and neither can the ` WxH` tail) the
greedy search for the rightmost ` WxH` within the rest of the current line.
The captures are parsed with `parse::<u32>().unwrap_or(0)`. -/
def matchVideoAt (s : List Char) : Option (Nat × Nat) :=
  if startsWithL ['V', 'i', 'd', 'e', 'o', ':'] s then
    match lastResMatch ((s.drop 6).takeWhile (fun c => decide (c ≠ '\n'))) with
    | some (ds1, ds2) => some (parseU32 ds1, parseU32 ds2)
    | none => none
  else none

/-- Leftmost-first match of the video regex. -/
def findVideo : List Char → Option (Nat × Nat)
  | [] => none
  | c :: rest =>
    match matchVideoAt (c :: rest) with
    | some v => some v
    | none => findVideo rest

/-- The duration computed by `probe_file` (main.rs 392-399): 0 when the
duration regex does not match, otherwise `h*3600 + m*60 + s` with `s` the
exact value of the `\d{2}\.\d+` capture. -/
def probeDuration (stderrText : List Char) : ℚ :=
  match findDuration stderrText with
  | some (h, m, sInt, frac) =>
    (h : ℚ) * 3600 + (m : ℚ) * 60 +
      ((sInt : ℚ) + (digitsVal frac : ℚ) / (10 : ℚ) ^ frac.length)
  | none => 0

/-- The pure parsing phase of `probe_file` (main.rs 390-413), applied to the
captured stderr text: duration from the duration regex (defaulting to 0 when
absent), width and height from the video regex (defaulting to 0), success
iff both dimensions are positive. -/
def probeParse (stderrText : List Char) : Except String (ℚ × Nat × Nat) :=
  match findVideo stderrText with
  | some (w, h) =>
    if 0 < w ∧ 0 < h then .ok (probeDuration stderrText, w, h)
    else .error "Could not parse video metadata"
  | none => .error "Could not parse video metadata"

/-- `probe_file` as seen by the worker: spawning the probe process can fail,
in which case the error string is returned (`map_err(|e| e.to_string())?`);
otherwise the captured stderr text is parsed by `probeParse`. -/
def probe_file_result : Except String (List Char) → Except String (ℚ × Nat × Nat)
  | .error e => .error e
  | .ok text => probeParse text

deriving instance DecidableEq for Except

/-- A synthetic diagnostic text in the shape the prober scrapes: a duration
line with digit characters `h1 h2 : m1 m2 : s1 s2 . f`, some filler, and a
video-stream line `Video: h264 <wds>x<hds>`. -/
def mkDiag (h1 h2 m1 m2 s1 s2 : Char) (f wds hds : List Char) : List Char :=
  ['D', 'u', 'r', 'a', 't', 'i', 'o', 'n', ':', ' ', h1, h2, ':', m1, m2, ':',
   s1, s2, '.'] ++ f ++
  [' ', '.', '.', '.', ' ', 'V', 'i', 'd', 'e', 'o', ':', ' ', 'h', '2', '6',
   '4', ' '] ++ wds ++ ['x'] ++ hds

/-! ### Worker state machine (`VideoWorker`, main.rs 235-377)

The worker owns the decode process and its reader. All interaction with the
outside world — the probe invocation, process spawning and the byte stream —
is supplied through an `Oracle` value per command. Alongside the worker we
track the OS process table (`ProcTable`): `start_ffmpeg`'s
`child.kill(); child.wait()` reaps the old pid from the table, and a
successful spawn adds the fresh pid. Events carry durations as `ℚ` and
coordinates as `Nat` pairs (lossless images of the Rust `f64`/`f32`). -/

/-- `AppCommand` (main.rs 12-19). -/
inductive AppCommand
  | LoadFile (path : String)
  | Seek (t : ℚ)
  | Step
  | Play
  | Pause
  deriving DecidableEq

/-- `AppEvent` (main.rs 21-35). -/
inductive AppEvent
  | FrameReady (image : RgbaImage) (width height : Nat) (position : Option (Nat × Nat))
  | Metadata (duration : ℚ) (width height : Nat)
  | Error (msg : String)
  deriving DecidableEq

/-- The mutable state of `VideoWorker` (main.rs 235-244), minus the two
channel endpoints: the process handle is modelled by its pid, the reader by
its presence. -/
structure VideoWorker where
  current_process : Option Nat
  current_reader : Option Unit
  current_file : Option String
  width : Nat
  height : Nat
  duration : ℚ
  deriving DecidableEq

/-- The OS process table: pids of the decoder processes currently alive. -/
structure ProcTable where
  live : List Nat
  deriving DecidableEq

/-- The worker's view of the external world while executing one command:
the outcome of the probe invocation (spawn error string, or captured stderr
text), the outcome of a `cmd.spawn()` (a fresh pid, or failure), and the
outcome of `read_exact` on the stream (the bytes filled into the
frame-sized buffer, or a short read / EOF). -/
structure Oracle where
  probeOut : Except String (List Char)
  spawnPid : Option Nat
  readBytes : Option (List Nat)

/-- `VideoWorker::start_ffmpeg` (main.rs 306-343): kill and wait (reap) any
previous process, drop the reader, and — if a file is loaded — spawn the
decoder (`-i path [-ss start_time] -f image2pipe -pix_fmt rgba -vcodec
rawvideo -`), piping its stdout into a fresh reader; on spawn failure, emit
an error event and keep no process. `_start_time` only affects the spawned
command line (the `-ss` argument), not the worker state. -/
def start_ffmpeg (st : VideoWorker) (os : ProcTable) (_start_time : ℚ)
    (spawnPid : Option Nat) : VideoWorker × ProcTable × List AppEvent :=
  let os : ProcTable :=
    match st.current_process with
    | some pid => { live := os.live.erase pid }
    | none => os
  let st := { st with current_process := none, current_reader := none }
  match st.current_file with
  | some _path =>
    match spawnPid with
    | some pid =>
      ({ st with current_reader := some (), current_process := some pid },
       { live := pid :: os.live }, [])
    | none => (st, os, [.Error "FFmpeg spawn error"])
  | none => (st, os, [])

/-- `VideoWorker::read_next_frame` (main.rs 350-376): a no-op unless both
dimensions are nonzero and a reader is live; reads exactly
`width*height*4` bytes (a short read is silently ignored), runs the marker
detector, and emits a `FrameReady` event if `RgbaImage::from_raw` accepts
the buffer. Never touches the worker state. -/
def read_next_frame (st : VideoWorker) (readBytes : Option (List Nat)) :
    VideoWorker × List AppEvent :=
  if st.width = 0 ∨ st.height = 0 then (st, [])
  else
    match st.current_reader with
    | none => (st, [])
    | some _ =>
      match readBytes with
      | none => (st, [])
      | some buffer =>
        let pos := find_position buffer st.width st.height
        match from_raw st.width st.height buffer with
        | some img => (st, [.FrameReady img st.width st.height pos])
        | none => (st, [])

/-- `VideoWorker::load_file` (main.rs 281-304): on probe success, install
the new session (duration, dimensions, file), emit `Metadata`, start the
decoder at offset 0 and read the first frame; on probe failure, emit a
single `Error` event and change nothing. -/
def load_file (st : VideoWorker) (os : ProcTable) (path : String) (o : Oracle) :
    VideoWorker × ProcTable × List AppEvent :=
  match probe_file_result o.probeOut with
  | .ok (dur, w, h) =>
    let st := { st with duration := dur, width := w, height := h,
                        current_file := some path }
    let r1 := start_ffmpeg st os 0 o.spawnPid
    let r2 := read_next_frame r1.1 o.readBytes
    (r2.1, r1.2.1, .Metadata dur w h :: (r1.2.2 ++ r2.2))
  | .error e => (st, os, [.Error e])

/-- `VideoWorker::seek` (main.rs 345-348): restart the decoder at the target
time and read one frame. -/
def seek (st : VideoWorker) (os : ProcTable) (t : ℚ) (o : Oracle) :
    VideoWorker × ProcTable × List AppEvent :=
  let r1 := start_ffmpeg st os t o.spawnPid
  let r2 := read_next_frame r1.1 o.readBytes
  (r2.1, r1.2.1, r1.2.2 ++ r2.2)

/-- One iteration of `VideoWorker::run` (main.rs 260-279): dispatch a
received command; `Play` and `Pause` are no-ops at the worker boundary. -/
def stepCmd (st : VideoWorker) (os : ProcTable) (cmd : AppCommand) (o : Oracle) :
    VideoWorker × ProcTable × List AppEvent :=
  match cmd with
  | .LoadFile path => load_file st os path o
  | .Step =>
    let r := read_next_frame st o.readBytes
    (r.1, os, r.2)
  | .Seek t => seek st os t o
  | .Play => (st, os, [])
  | .Pause => (st, os, [])

/-- `VideoWorker::new` (main.rs 247-258). -/
def initWorker : VideoWorker :=
  { current_process := none, current_reader := none, current_file := none,
    width := 0, height := 0, duration := 0 }

/-- Initially no decoder process is alive. -/
def initProcs : ProcTable := { live := [] }

/-- The worker states (paired with the OS process table) reachable from the
initial state by executing commands, with arbitrary oracle outcomes. -/
inductive WorkerReachable : VideoWorker → ProcTable → Prop
  | init : WorkerReachable initWorker initProcs
  | step (st : VideoWorker) (os : ProcTable) (cmd : AppCommand) (o : Oracle) :
      WorkerReachable st os →
      WorkerReachable (stepCmd st os cmd o).1 (stepCmd st os cmd o).2.1

/-! ### Helper lemmas: the scan loop -/

theorem sub_mod_div (i n : Nat) : (i - i % n) / n = i / n := by
  rcases Nat.eq_zero_or_pos n with h | h
  · subst h; simp [Nat.mod_zero]
  · have hd := Nat.div_add_mod i n
    have hs : i - i % n = n * (i / n) := by omega
    rw [hs, Nat.mul_div_cancel_left _ h]

/-- Soundness of the scan loop: a returned coordinate comes from the first
matching pixel-aligned offset at or after the loop's starting offset. -/
theorem findPosLoop_some (data : List Nat) (pxRow limit : Nat) :
    ∀ (fuel i0 x y : Nat), i0 % 4 = 0 →
      findPosLoop data pxRow limit fuel i0 = some (x, y) →
      ∃ i, i0 ≤ i ∧ i % 4 = 0 ∧ i < limit ∧ isMarkerAt data pxRow i = true ∧
        x = i % pxRow / 4 ∧ y = (i - i % pxRow) / pxRow ∧
        ∀ j, i0 ≤ j → j < i → j % 4 = 0 → isMarkerAt data pxRow j = false := by
  intro fuel
  induction fuel with
  | zero =>
    intro i0 x y _ h
    simp [findPosLoop] at h
  | succ fuel ih =>
    intro i0 x y h4 h
    rw [findPosLoop] at h
    by_cases hlt : i0 < limit
    · rw [if_pos hlt] at h
      by_cases hm : isMarkerAt data pxRow i0 = true
      · rw [if_pos hm] at h
        simp only [Option.some.injEq, Prod.mk.injEq] at h
        exact ⟨i0, le_refl _, h4, hlt, hm, h.1.symm, h.2.symm,
          fun j hj1 hj2 _ => absurd hj2 (by omega)⟩
      · rw [if_neg hm] at h
        obtain ⟨i, hi0, hi4, hilim, him, hx, hy, hmin⟩ := ih (i0 + 4) x y (by omega) h
        refine ⟨i, by omega, hi4, hilim, him, hx, hy, fun j hj1 hj2 hj4 => ?_⟩
        rcases Nat.eq_or_lt_of_le hj1 with hj | hj
        · rw [← hj]; exact Bool.eq_false_iff.mpr hm
        · exact hmin j (by omega) hj2 hj4
    · rw [if_neg hlt] at h
      exact absurd h (by simp)

/-- Completeness companion: when no pixel-aligned offset matches, the scan
loop returns `none` (whatever the fuel). -/
theorem findPosLoop_none (data : List Nat) (pxRow limit : Nat)
    (hall : ∀ i, i % 4 = 0 → isMarkerAt data pxRow i = false) :
    ∀ (fuel i0 : Nat), i0 % 4 = 0 →
      findPosLoop data pxRow limit fuel i0 = none := by
  intro fuel
  induction fuel with
  | zero => intro i0 _; rw [findPosLoop]
  | succ fuel ih =>
    intro i0 h4
    rw [findPosLoop]
    by_cases hlt : i0 < limit
    · rw [if_pos hlt, hall i0 h4]
      simp only [Bool.false_eq_true, if_false]
      exact ih (i0 + 4) (by omega)
    · rw [if_neg hlt]

/-! ### C1 and C2: marker detector functional correctness -/

/-- C1: if `find_position` returns a coordinate, that coordinate corresponds
to the earliest pixel-aligned byte offset `i` in the row-major scan range
(which excludes the last 20 rows) whose candidate passes the full classifier
`isMarkerAt` (bright core `≥ 210` on all three channels, right neighbour
below 90 on all three channels, the next 13 rows strictly above 210, the 14
rows one pixel to the left below 90, with out-of-bounds treated as rule
failure), and the returned value is in pixel units:
`x = (i % row_stride) / 4` and `y = i / row_stride`; no earlier pixel-aligned
offset passes all the rules. -/
theorem C1_earliest_match (data : List Nat) (width hgt x y : Nat)
    (h : find_position data width hgt = some (x, y)) :
    ∃ i, i % 4 = 0 ∧ i < data.length - 20 * (width * 4) ∧
      isMarkerAt data (width * 4) i = true ∧
      x = i % (width * 4) / 4 ∧ y = i / (width * 4) ∧
      ∀ j, j % 4 = 0 → j < i → isMarkerAt data (width * 4) j = false := by
  simp only [find_position] at h
  obtain ⟨i, _, hi4, hlim, hmark, hx, hy, hmin⟩ :=
    findPosLoop_some data (width * 4) (data.length - 20 * (width * 4)) _ 0 x y rfl h
  exact ⟨i, hi4, hlim, hmark, hx, by rw [hy, sub_mod_div],
    fun j hj4 hji => hmin j (Nat.zero_le _) hji hj4⟩

set_option maxRecDepth 400000 in
/-- Witness for C1 at a concrete input: a 4×34 frame with the marker column
at pixel x = 1 makes `find_position` return `(1, 0)`, and the theorem
produces the earliest-matching-offset decomposition for it. -/
theorem C1_earliest_match_witness :
    ∃ i, i % 4 = 0 ∧ i < (mkColBuf 4 34 1).length - 20 * (4 * 4) ∧
      isMarkerAt (mkColBuf 4 34 1) (4 * 4) i = true ∧
      1 = i % (4 * 4) / 4 ∧ 0 = i / (4 * 4) ∧
      ∀ j, j % 4 = 0 → j < i → isMarkerAt (mkColBuf 4 34 1) (4 * 4) j = false :=
  C1_earliest_match (mkColBuf 4 34 1) 4 34 1 0 (by decide)

set_option maxRecDepth 400000 in
/-- C2: a synthetic 12×34 frame buffer with a 1-pixel-wide, 14-row-tall
column of `(255,255,255,_)` at pixel x = 10 starting at row 0, with
`(0,0,0,_)` immediately to its left for all 14 rows and `(0,0,0,_)`
everywhere else, yields marker coordinate `(10, 0)`. -/
theorem C2_scenario_column :
    find_position (mkColBuf 12 34 10) 12 34 = some (10, 0) := by decide

/-! ### C3: detector returns none on contrast-free or short buffers -/

/-- On a uniformly black buffer (all colour channels 0) no candidate passes
the bright-core rule. -/
theorem isMarkerAt_black (data : List Nat) (pxRow i : Nat)
    (hb : ∀ j, j < data.length → j % 4 ≠ 3 → data.getD j 0 = 0) (h4 : i % 4 = 0) :
    isMarkerAt data pxRow i = false := by
  unfold isMarkerAt
  by_cases h1 : data.length ≤ i + 2
  · rw [if_pos h1]
  · have e0 : data.getD i 0 = 0 := hb i (by omega) (by omega)
    rw [if_neg h1, if_pos (by rw [e0]; simp [limMax])]

/-- On a uniformly bright buffer (all colour channels 255) every candidate
passes the bright-core rule but fails the dark-right-neighbour rule (or its
bounds check). -/
theorem isMarkerAt_bright (data : List Nat) (pxRow i : Nat)
    (hb : ∀ j, j < data.length → j % 4 ≠ 3 → data.getD j 0 = 255) (h4 : i % 4 = 0) :
    isMarkerAt data pxRow i = false := by
  have hpx : pxForCol = 4 := rfl
  unfold isMarkerAt
  by_cases h1 : data.length ≤ i + 2
  · rw [if_pos h1]
  · have e0 : data.getD i 0 = 255 := hb i (by omega) (by omega)
    have e1 : data.getD (i + 1) 0 = 255 := hb _ (by omega) (by omega)
    have e2 : data.getD (i + 2) 0 = 255 := hb _ (by omega) (by omega)
    rw [if_neg h1, if_neg (by rw [e0, e1, e2]; simp [limMax])]
    by_cases h2 : data.length ≤ i + pxForCol + 2
    · rw [if_pos h2]
    · have e3 : data.getD (i + pxForCol) 0 = 255 :=
        hb _ (by omega) (by rw [hpx]; omega)
      rw [if_neg h2, if_pos (by rw [e3]; left; simp [limMin])]

set_option maxRecDepth 400000 in
/-- Counterexample to C3 as stated: a 12×33 buffer — 33 rows, strictly below
the claimed minimum scan height of 14+20 = 34 rows — on which `find_position`
returns a coordinate rather than "none". The 20-row scan margin already
leaves room for the 13-row downward lookahead, so a 14-row column fits in a
buffer of only 21 rows. -/
theorem C3_counterexample :
    (mkColBuf 12 33 10).length = 12 * 33 * 4 ∧
    find_position (mkColBuf 12 33 10) 12 33 = some (10, 0) :=
  ⟨by decide, by decide⟩

/-- C3 (amended): the Marker Detector returns "none" (a) on every uniformly
black buffer and (b) on every uniformly bright buffer, and (c) on every
buffer whose byte length is at most 20 rows' worth (`20 * width * 4`), i.e.
whose height is below the minimum scan height of 21 rows — not the 34 rows
of the original claim — regardless of pixel contents. -/
theorem C3_amended :
    (∀ (data : List Nat) (w h : Nat),
        (∀ j, j < data.length → j % 4 ≠ 3 → data.getD j 0 = 0) →
        find_position data w h = none) ∧
    (∀ (data : List Nat) (w h : Nat),
        (∀ j, j < data.length → j % 4 ≠ 3 → data.getD j 0 = 255) →
        find_position data w h = none) ∧
    (∀ (data : List Nat) (w h : Nat), data.length ≤ 20 * (w * 4) →
        find_position data w h = none) := by
  refine ⟨?_, ?_, ?_⟩
  · intro data w h hb
    simp only [find_position]
    exact findPosLoop_none data (w * 4) _
      (fun i h4 => isMarkerAt_black data (w * 4) i hb h4) _ 0 rfl
  · intro data w h hb
    simp only [find_position]
    exact findPosLoop_none data (w * 4) _
      (fun i h4 => isMarkerAt_bright data (w * 4) i hb h4) _ 0 rfl
  · intro data w h hl
    simp only [find_position]
    rw [Nat.sub_eq_zero_of_le hl, findPosLoop, if_neg (lt_irrefl 0)]

set_option maxRecDepth 400000 in
/-- Witness for C3 (amended) on concrete buffers: a 1×34 black frame, a 1×34
bright frame, and a 12×20 frame (20 rows, i.e. shorter than the minimum scan
height) that even contains a marker column. -/
theorem C3_amended_witness :
    find_position (List.replicate 136 0) 1 34 = none ∧
    find_position (List.replicate 136 255) 1 34 = none ∧
    find_position (mkColBuf 12 20 10) 12 20 = none :=
  ⟨C3_amended.1 (List.replicate 136 0) 1 34 (by decide),
   C3_amended.2.1 (List.replicate 136 255) 1 34 (by decide),
   C3_amended.2.2 (mkColBuf 12 20 10) 12 20 (by decide)⟩

/-! ### C4: frame codec validates the exact byte count -/

/-- C4: Frame Buffer construction (`RgbaImage::from_raw`, modelled from the
spec) fails for every byte buffer whose length differs from
`width*height*4`, and succeeds on exactly that length, preserving every byte
unchanged. -/
theorem C4_frame_codec :
    (∀ (w h : Nat) (buf : List Nat), buf.length ≠ w * h * 4 →
      from_raw w h buf = none) ∧
    (∀ (w h : Nat) (buf : List Nat), buf.length = w * h * 4 →
      from_raw w h buf = some { width := w, height := h, data := buf }) := by
  constructor
  · intro w h buf hb; simp [from_raw, hb]
  · intro w h buf hb; simp [from_raw, hb]

/-- Witness for C4: a 3-byte buffer is refused for a 1×1 frame; a 4-byte
buffer is accepted and its bytes are kept as-is. -/
theorem C4_frame_codec_witness :
    from_raw 1 1 [9, 8, 7] = none ∧
    from_raw 1 1 [9, 8, 7, 6] = some { width := 1, height := 1, data := [9, 8, 7, 6] } :=
  ⟨C4_frame_codec.1 1 1 [9, 8, 7] (by decide),
   C4_frame_codec.2 1 1 [9, 8, 7, 6] (by decide)⟩

/-! ### C5: prober fails exactly when no positive dimensions are scraped -/

/-- C5: the prober's parse returns an error if and only if the `Video:` regex
(leftmost-first match, `\d{3,}` dimensions collapsed to 0 on `u32` overflow)
does not produce a positive width and a positive height; absence of a
parseable `Duration:` line is never fatal by itself and yields duration 0. -/
theorem C5_probe_error_iff (s : List Char) :
    ((∃ e, probeParse s = .error e) ↔
      ¬ ∃ w h, findVideo s = some (w, h) ∧ 0 < w ∧ 0 < h) ∧
    (∀ (d : ℚ) (w h : Nat), probeParse s = .ok (d, w, h) →
      findDuration s = none → d = 0) := by
  constructor
  · unfold probeParse
    cases hv : findVideo s with
    | none => simp
    | some p =>
      obtain ⟨w0, h0⟩ := p
      dsimp only
      by_cases hwh : 0 < w0 ∧ 0 < h0
      · rw [if_pos hwh]
        simp [hwh.1, hwh.2]
        omega
      · rw [if_neg hwh]
        simp
        omega
  · intro d w h hok hdur
    unfold probeParse at hok
    cases hv : findVideo s with
    | none => rw [hv] at hok; cases hok
    | some p =>
      obtain ⟨w0, h0⟩ := p
      rw [hv] at hok
      dsimp only at hok
      by_cases hwh : 0 < w0 ∧ 0 < h0
      · rw [if_pos hwh] at hok
        injection hok with h1
        simp only [Prod.mk.injEq] at h1
        rw [← h1.1]
        simp [probeDuration, hdur]
      · rw [if_neg hwh] at hok; cases hok

/-- Witness for C5 at a concrete stderr text that has a video line but no
duration line: the parse succeeds and the duration defaults to 0. -/
theorem C5_probe_error_iff_witness :
    ((∃ e, probeParse "Video: h264 1920x1080".toList = .error e) ↔
      ¬ ∃ w h, findVideo "Video: h264 1920x1080".toList = some (w, h) ∧ 0 < w ∧ 0 < h) ∧
    (0 : ℚ) = 0 :=
  ⟨(C5_probe_error_iff "Video: h264 1920x1080".toList).1,
   (C5_probe_error_iff "Video: h264 1920x1080".toList).2 0 1920 1080
     (by decide) (by decide)⟩

/-! ### C6: round-trip of synthetic diagnostic strings -/

theorem takeWhile_all_of {p : Char → Bool} :
    ∀ l : List Char, (∀ c ∈ l, p c = true) → l.takeWhile p = l
  | [], _ => rfl
  | a :: t, hl => by
    simp only [List.takeWhile, hl a (List.mem_cons_self a t)]
    exact congrArg (a :: ·) (takeWhile_all_of t fun c hc => hl c (List.mem_cons_of_mem a hc))

theorem takeWhile_append_cons {p : Char → Bool} :
    ∀ l : List Char, (∀ c ∈ l, p c = true) →
      ∀ (a : Char), p a = false → ∀ t : List Char, (l ++ a :: t).takeWhile p = l
  | [], _, a, ha, t => by simp [List.takeWhile, ha]
  | b :: l, hl, a, ha, t => by
    simp only [List.cons_append, List.takeWhile, hl b (List.mem_cons_self b l)]
    exact congrArg (b :: ·)
      (takeWhile_append_cons l (fun c hc => hl c (List.mem_cons_of_mem b hc)) a ha t)

theorem dropWhile_append_cons {p : Char → Bool} :
    ∀ l : List Char, (∀ c ∈ l, p c = true) →
      ∀ (a : Char), p a = false → ∀ t : List Char, (l ++ a :: t).dropWhile p = a :: t
  | [], _, a, ha, t => by simp [List.dropWhile, ha]
  | b :: l, hl, a, ha, t => by
    simp only [List.cons_append, List.dropWhile, hl b (List.mem_cons_self b l)]
    exact dropWhile_append_cons l (fun c hc => hl c (List.mem_cons_of_mem b hc)) a ha t

/-- A digit character is distinct from any non-digit character. -/
theorem digit_ne {c : Char} (hc : isDigitCh c = true) {d : Char}
    (hd : isDigitCh d = false) : ¬ c = d := by
  intro h; rw [h, hd] at hc; cases hc

theorem matchVideoAt_cons_ne (c : Char) (rest : List Char) (hc : ¬ c = 'V') :
    matchVideoAt (c :: rest) = none := by
  simp [matchVideoAt, startsWithL, hc]

theorem findVideo_cons_ne (c : Char) (rest : List Char) (hc : ¬ c = 'V') :
    findVideo (c :: rest) = findVideo rest := by
  rw [findVideo, matchVideoAt_cons_ne c rest hc]

theorem findVideo_digits_append {l : List Char} (hl : ∀ c ∈ l, isDigitCh c = true)
    (t : List Char) : findVideo (l ++ t) = findVideo t := by
  induction l with
  | nil => simp
  | cons a l ih =>
    rw [List.cons_append,
      findVideo_cons_ne a _ (digit_ne (hl a (List.mem_cons_self a l)) (by decide)),
      ih fun c hc => hl c (List.mem_cons_of_mem a hc)]

theorem matchResAt_cons_ne (c : Char) (rest : List Char) (hc : ¬ c = ' ') :
    matchResAt (c :: rest) = none := by
  simp [matchResAt, hc]

theorem lastResMatch_none {l : List Char} (hl : ∀ c ∈ l, ¬ c = ' ') :
    lastResMatch l = none := by
  induction l with
  | nil => rfl
  | cons a t ih =>
    rw [lastResMatch, ih fun c hc => hl c (List.mem_cons_of_mem a hc),
      matchResAt_cons_ne a t (hl a (List.mem_cons_self a t))]

theorem lastResMatch_cons_some (c : Char) (rest : List Char)
    (v : List Char × List Char) (h : lastResMatch rest = some v) :
    lastResMatch (c :: rest) = some v := by
  rw [lastResMatch, h]

/-- Resolution of the greedy ` (\d{3,})x(\d{3,})` search on the tail
` <wds>x<hds>` of a synthetic video line. -/
theorem lastResMatch_main (wds hds : List Char)
    (hw : ∀ c ∈ wds, isDigitCh c = true) (hh : ∀ c ∈ hds, isDigitCh c = true)
    (hw3 : 3 ≤ wds.length) (hh3 : 3 ≤ hds.length) :
    lastResMatch (' ' :: (wds ++ 'x' :: hds)) = some (wds, hds) := by
  have hnone : lastResMatch (wds ++ 'x' :: hds) = none := by
    apply lastResMatch_none
    intro c hc
    rcases List.mem_append.mp hc with hc | hc
    · exact digit_ne (hw c hc) (by decide)
    · rcases List.mem_cons.mp hc with hc | hc
      · rw [hc]; decide
      · exact digit_ne (hh c hc) (by decide)
  rw [lastResMatch, hnone]
  show matchResAt (' ' :: (wds ++ 'x' :: hds)) = some (wds, hds)
  rw [matchResAt]
  rw [if_pos rfl, takeWhile_append_cons wds hw 'x' (by decide) hds,
    dropWhile_append_cons wds hw 'x' (by decide) hds]
  simp only [if_pos hw3]
  rw [takeWhile_all_of hds hh]
  simp [hh3]

/-- The duration regex on a synthetic diagnostic string captures exactly the
encoded digit groups (the match succeeds at offset 0). -/
theorem findDuration_mkDiag (h1 h2 m1 m2 s1 s2 : Char) (f wds hds : List Char)
    (hd1 : isDigitCh h1 = true) (hd2 : isDigitCh h2 = true)
    (hd3 : isDigitCh m1 = true) (hd4 : isDigitCh m2 = true)
    (hd5 : isDigitCh s1 = true) (hd6 : isDigitCh s2 = true)
    (hf : f ≠ []) (hfd : ∀ c ∈ f, isDigitCh c = true) :
    findDuration (mkDiag h1 h2 m1 m2 s1 s2 f wds hds) =
      some (digitVal h1 * 10 + digitVal h2, digitVal m1 * 10 + digitVal m2,
            digitVal s1 * 10 + digitVal s2, f) := by
  simp only [mkDiag, List.append_assoc, List.cons_append, List.nil_append]
  rw [findDuration]
  rw [show ∀ r, matchDurAt ('D' :: 'u' :: 'r' :: 'a' :: 't' :: 'i' :: 'o' :: 'n' ::
        ':' :: ' ' :: h1 :: h2 :: ':' :: m1 :: m2 :: ':' :: s1 :: s2 :: '.' :: r) =
      (if isDigitCh h1 && isDigitCh h2 && isDigitCh m1 && isDigitCh m2 &&
          isDigitCh s1 && isDigitCh s2 then
        let frac := r.takeWhile isDigitCh
        if frac = [] then none
        else
          some (digitVal h1 * 10 + digitVal h2,
                digitVal m1 * 10 + digitVal m2,
                digitVal s1 * 10 + digitVal s2,
                frac)
      else none) from fun r => rfl]
  rw [hd1, hd2, hd3, hd4, hd5, hd6]
  simp only [Bool.and_self, if_true]
  rw [takeWhile_append_cons f hfd ' ' (by decide)]
  rw [if_neg hf]

/-- The video regex on a synthetic diagnostic string captures exactly the
encoded dimension digit strings. -/
theorem findVideo_mkDiag (h1 h2 m1 m2 s1 s2 : Char) (f wds hds : List Char)
    (hd1 : isDigitCh h1 = true) (hd2 : isDigitCh h2 = true)
    (hd3 : isDigitCh m1 = true) (hd4 : isDigitCh m2 = true)
    (hd5 : isDigitCh s1 = true) (hd6 : isDigitCh s2 = true)
    (hfd : ∀ c ∈ f, isDigitCh c = true)
    (hw : ∀ c ∈ wds, isDigitCh c = true) (hw3 : 3 ≤ wds.length)
    (hh : ∀ c ∈ hds, isDigitCh c = true) (hh3 : 3 ≤ hds.length)
    (hwv : digitsVal wds < 4294967296) (hhv : digitsVal hds < 4294967296) :
    findVideo (mkDiag h1 h2 m1 m2 s1 s2 f wds hds) =
      some (digitsVal wds, digitsVal hds) := by
  simp only [mkDiag, List.append_assoc, List.cons_append, List.nil_append]
  rw [findVideo_cons_ne _ _ (by decide), findVideo_cons_ne _ _ (by decide),
    findVideo_cons_ne _ _ (by decide), findVideo_cons_ne _ _ (by decide),
    findVideo_cons_ne _ _ (by decide), findVideo_cons_ne _ _ (by decide),
    findVideo_cons_ne _ _ (by decide), findVideo_cons_ne _ _ (by decide),
    findVideo_cons_ne _ _ (by decide), findVideo_cons_ne _ _ (by decide),
    findVideo_cons_ne _ _ (digit_ne hd1 (by decide)),
    findVideo_cons_ne _ _ (digit_ne hd2 (by decide)),
    findVideo_cons_ne _ _ (by decide),
    findVideo_cons_ne _ _ (digit_ne hd3 (by decide)),
    findVideo_cons_ne _ _ (digit_ne hd4 (by decide)),
    findVideo_cons_ne _ _ (by decide),
    findVideo_cons_ne _ _ (digit_ne hd5 (by decide)),
    findVideo_cons_ne _ _ (digit_ne hd6 (by decide)),
    findVideo_cons_ne _ _ (by decide),
    findVideo_digits_append hfd,
    findVideo_cons_ne _ _ (by decide), findVideo_cons_ne _ _ (by decide),
    findVideo_cons_ne _ _ (by decide), findVideo_cons_ne _ _ (by decide),
    findVideo_cons_ne _ _ (by decide)]
  rw [findVideo]
  have hline : (('V' :: 'i' :: 'd' :: 'e' :: 'o' :: ':' :: ' ' :: 'h' :: '2' ::
      '6' :: '4' :: ' ' :: (wds ++ 'x' :: hds)).drop 6).takeWhile
        (fun c => decide (c ≠ '\n')) =
      ' ' :: 'h' :: '2' :: '6' :: '4' :: ' ' :: (wds ++ 'x' :: hds) := by
    show (' ' :: 'h' :: '2' :: '6' :: '4' :: ' ' :: (wds ++ 'x' :: hds)).takeWhile
        (fun c => decide (c ≠ '\n')) = _
    apply takeWhile_all_of
    intro c hc
    simp only [List.mem_cons, List.mem_append] at hc
    rcases hc with rfl | rfl | rfl | rfl | rfl | rfl | hc | rfl | hc
    · decide
    · decide
    · decide
    · decide
    · decide
    · decide
    · exact decide_eq_true (digit_ne (hw c hc) (by decide))
    · decide
    · exact decide_eq_true (digit_ne (hh c hc) (by decide))
  rw [show matchVideoAt ('V' :: 'i' :: 'd' :: 'e' :: 'o' :: ':' :: ' ' :: 'h' ::
      '2' :: '6' :: '4' :: ' ' :: (wds ++ 'x' :: hds)) =
      some (digitsVal wds, digitsVal hds) from ?_]
  · unfold matchVideoAt
    rw [if_pos (show startsWithL ['V', 'i', 'd', 'e', 'o', ':']
      ('V' :: 'i' :: 'd' :: 'e' :: 'o' :: ':' :: ' ' :: 'h' :: '2' :: '6' :: '4' ::
        ' ' :: (wds ++ 'x' :: hds)) = true from rfl)]
    rw [show ('V' :: 'i' :: 'd' :: 'e' :: 'o' :: ':' :: ' ' :: 'h' :: '2' :: '6' ::
        '4' :: ' ' :: (wds ++ 'x' :: hds)).drop 6 =
        ' ' :: 'h' :: '2' :: '6' :: '4' :: ' ' :: (wds ++ 'x' :: hds) from rfl] at hline
    rw [show (('V' :: 'i' :: 'd' :: 'e' :: 'o' :: ':' :: ' ' :: 'h' :: '2' :: '6' ::
        '4' :: ' ' :: (wds ++ 'x' :: hds)).drop 6) =
        ' ' :: 'h' :: '2' :: '6' :: '4' :: ' ' :: (wds ++ 'x' :: hds) from rfl]
    rw [hline]
    rw [lastResMatch_cons_some _ _ _ (lastResMatch_cons_some _ _ _
      (lastResMatch_cons_some _ _ _ (lastResMatch_cons_some _ _ _
        (lastResMatch_cons_some _ _ _ (lastResMatch_main wds hds hw hh hw3 hh3)))))]
    simp only [parseU32, if_pos hwv, if_pos hhv]

/-- C6: the prober's parse is a round-trip on synthetic diagnostic strings —
it returns exactly the numeric values encoded in the digit groups, with the
duration combined as `h*3600 + m*60 + s` — and on the concrete probe output
`Duration: 00:01:30.50 ... Video: h264 1920x1080` it yields duration 90.5
seconds (= 181/2), width 1920 and height 1080. -/
theorem C6_probe_roundtrip :
    (∀ (h1 h2 m1 m2 s1 s2 : Char) (f wds hds : List Char),
      isDigitCh h1 = true → isDigitCh h2 = true → isDigitCh m1 = true →
      isDigitCh m2 = true → isDigitCh s1 = true → isDigitCh s2 = true →
      f ≠ [] → (∀ c ∈ f, isDigitCh c = true) →
      (∀ c ∈ wds, isDigitCh c = true) → 3 ≤ wds.length →
      (∀ c ∈ hds, isDigitCh c = true) → 3 ≤ hds.length →
      0 < digitsVal wds → digitsVal wds < 4294967296 →
      0 < digitsVal hds → digitsVal hds < 4294967296 →
      probeParse (mkDiag h1 h2 m1 m2 s1 s2 f wds hds) =
        .ok (((digitVal h1 * 10 + digitVal h2 : Nat) : ℚ) * 3600 +
               ((digitVal m1 * 10 + digitVal m2 : Nat) : ℚ) * 60 +
               (((digitVal s1 * 10 + digitVal s2 : Nat) : ℚ) +
                 (digitsVal f : ℚ) / (10 : ℚ) ^ f.length),
             digitsVal wds, digitsVal hds)) ∧
    probeParse "Duration: 00:01:30.50 ... Video: h264 1920x1080".toList =
      .ok ((181 : ℚ) / 2, 1920, 1080) := by
  constructor
  · intro h1 h2 m1 m2 s1 s2 f wds hds hd1 hd2 hd3 hd4 hd5 hd6 hf hfd hw hw3
      hh hh3 hwp hwv hhp hhv
    unfold probeParse
    rw [findVideo_mkDiag h1 h2 m1 m2 s1 s2 f wds hds hd1 hd2 hd3 hd4 hd5 hd6
      hfd hw hw3 hh hh3 hwv hhv]
    dsimp only
    rw [if_pos ⟨hwp, hhp⟩]
    unfold probeDuration
    rw [findDuration_mkDiag h1 h2 m1 m2 s1 s2 f wds hds hd1 hd2 hd3 hd4 hd5 hd6
      hf hfd]
  · have hd : findDuration "Duration: 00:01:30.50 ... Video: h264 1920x1080".toList =
        some (0, 1, 30, ['5', '0']) := by decide
    have hv : findVideo "Duration: 00:01:30.50 ... Video: h264 1920x1080".toList =
        some (1920, 1080) := by decide
    have h50 : digitsVal ['5', '0'] = 50 := by decide
    unfold probeParse probeDuration
    rw [hd, hv]
    norm_num [h50]

/-- Witness for C6 at concrete digit groups: the synthetic string encoding
`00:01:30.50` and `1920x1080` parses back to exactly those values. -/
theorem C6_probe_roundtrip_witness :
    probeParse (mkDiag '0' '0' '0' '1' '3' '0' ['5', '0'] ['1', '9', '2', '0']
        ['1', '0', '8', '0']) =
      .ok (((digitVal '0' * 10 + digitVal '0' : Nat) : ℚ) * 3600 +
             ((digitVal '0' * 10 + digitVal '1' : Nat) : ℚ) * 60 +
             (((digitVal '3' * 10 + digitVal '0' : Nat) : ℚ) +
               (digitsVal ['5', '0'] : ℚ) / (10 : ℚ) ^ (['5', '0'] : List Char).length),
           digitsVal ['1', '9', '2', '0'], digitsVal ['1', '0', '8', '0']) :=
  C6_probe_roundtrip.1 '0' '0' '0' '1' '3' '0' ['5', '0'] ['1', '9', '2', '0']
    ['1', '0', '8', '0']
    (by decide) (by decide) (by decide) (by decide) (by decide) (by decide)
    (by decide) (by decide) (by decide) (by decide) (by decide) (by decide)
    (by decide) (by decide) (by decide) (by decide)

/-! ### C7: Step is silent when no frame can be produced -/

/-- C7: a `Step` command produces no frame, emits no event (in particular no
error), and leaves the worker state and the process table untouched whenever
no reader is active, or the session dimensions are zero, or the exact
`width*height*4` bytes cannot be read from the stream (short read / EOF). -/
theorem C7_step_silent (st : VideoWorker) (os : ProcTable) (o : Oracle)
    (h : st.current_reader = none ∨ st.width = 0 ∨ st.height = 0 ∨
      o.readBytes = none) :
    stepCmd st os .Step o = (st, os, []) := by
  have hr : read_next_frame st o.readBytes = (st, []) := by
    unfold read_next_frame
    by_cases hwh : st.width = 0 ∨ st.height = 0
    · rw [if_pos hwh]
    · rw [if_neg hwh]
      cases hcr : st.current_reader with
      | none => rfl
      | some u =>
        cases hrb : o.readBytes with
        | none => rfl
        | some bytes =>
          rcases h with h | h | h | h
          · rw [hcr] at h; cases h
          · exact absurd (Or.inl h) hwh
          · exact absurd (Or.inr h) hwh
          · rw [hrb] at h; cases h
  unfold stepCmd
  rw [hr]

/-- Witness for C7: in the freshly created worker (no reader, zero
dimensions) a `Step` does nothing. -/
theorem C7_step_silent_witness :
    stepCmd initWorker initProcs .Step
        { probeOut := .ok [], spawnPid := none, readBytes := none } =
      (initWorker, initProcs, []) :=
  C7_step_silent initWorker initProcs
    { probeOut := .ok [], spawnPid := none, readBytes := none } (Or.inl rfl)

/-! ### C8: failed probe leaves the worker untouched -/

/-- C8: when the probe step of a `LoadFile` command fails, the worker emits
exactly one `Error` event and nothing else — no `Metadata`, no `FrameReady`,
no process start — and its entire session state and the process table are
exactly as before the command. -/
theorem C8_load_error_atomic (st : VideoWorker) (os : ProcTable) (path : String)
    (o : Oracle) (e : String) (h : probe_file_result o.probeOut = .error e) :
    stepCmd st os (.LoadFile path) o = (st, os, [.Error e]) := by
  unfold stepCmd load_file
  rw [h]

/-- Witness for C8: loading a file whose probe output contains no video line
yields exactly the probe error event and no state change. -/
theorem C8_load_error_atomic_witness :
    stepCmd initWorker initProcs (.LoadFile "clip.mp4")
        { probeOut := .ok [], spawnPid := none, readBytes := none } =
      (initWorker, initProcs, [.Error "Could not parse video metadata"]) :=
  C8_load_error_atomic initWorker initProcs "clip.mp4"
    { probeOut := .ok [], spawnPid := none, readBytes := none }
    "Could not parse video metadata" (by decide)

/-! ### C9: at most one decode process is ever alive -/

/-- The process-table invariant: the pids alive in the OS are exactly the
worker's current process handle. -/
def procInv (st : VideoWorker) (os : ProcTable) : Prop :=
  os.live = st.current_process.toList

/-- `read_next_frame` never modifies the worker state. -/
theorem read_next_frame_fst (st : VideoWorker) (rb : Option (List Nat)) :
    (read_next_frame st rb).1 = st := by
  unfold read_next_frame
  split
  · rfl
  · split
    · rfl
    · split
      · rfl
      · split
        · rfl
        · rfl

/-- `start_ffmpeg` preserves the process-table invariant: the old process is
reaped before the new one is spawned, and a failed spawn leaves no process. -/
theorem start_ffmpeg_inv (st : VideoWorker) (os : ProcTable) (t : ℚ)
    (sp : Option Nat) (h : procInv st os) :
    procInv (start_ffmpeg st os t sp).1 (start_ffmpeg st os t sp).2.1 := by
  unfold procInv at h
  unfold start_ffmpeg procInv
  cases hcp : st.current_process with
  | none =>
    rw [hcp] at h
    simp only [Option.toList] at h
    cases hcf : st.current_file <;> cases sp <;>
      simp [hcf, h, Option.toList]
  | some pid =>
    rw [hcp] at h
    simp only [Option.toList] at h
    cases hcf : st.current_file <;> cases sp <;>
      simp [hcf, h, Option.toList, List.erase_cons_head]

/-- Every worker command preserves the process-table invariant. -/
theorem stepCmd_inv (st : VideoWorker) (os : ProcTable) (cmd : AppCommand)
    (o : Oracle) (h : procInv st os) :
    procInv (stepCmd st os cmd o).1 (stepCmd st os cmd o).2.1 := by
  cases cmd with
  | LoadFile path =>
    unfold stepCmd load_file
    cases hp : probe_file_result o.probeOut with
    | error e => exact h
    | ok r =>
      obtain ⟨dur, w, hgt⟩ := r
      dsimp only
      rw [read_next_frame_fst]
      exact start_ffmpeg_inv _ os 0 o.spawnPid h
  | Step =>
    unfold stepCmd
    dsimp only
    rw [read_next_frame_fst]
    exact h
  | Seek t =>
    unfold stepCmd seek
    dsimp only
    rw [read_next_frame_fst]
    exact start_ffmpeg_inv st os t o.spawnPid h
  | Play => exact h
  | Pause => exact h

/-- C9: in every worker state reachable from the initial state — under any
sequence of commands and any outcomes of the external world — at most one
decoder process is alive: each restart reaps the previous process before
spawning, and a failed spawn leaves none. -/
theorem C9_single_process (st : VideoWorker) (os : ProcTable)
    (h : WorkerReachable st os) : os.live.length ≤ 1 := by
  have inv : procInv st os := by
    induction h with
    | init => rfl
    | step st os cmd o _ ih => exact stepCmd_inv st os cmd o ih
  rw [inv]
  cases st.current_process <;> simp [Option.toList]

/-- Witness for C9 at the initial state. -/
theorem C9_single_process_witness : initProcs.live.length ≤ 1 :=
  C9_single_process initWorker initProcs WorkerReachable.init

/-! ### C10: the detector cannot panic when `width ≥ 1` -/

theorem getElem?_eq_getD {data : List Nat} {i : Nat} (h : i < data.length) :
    data[i]? = some (data.getD i 0) := by
  rw [List.getElem?_eq_getElem h, List.getD_eq_getElem data 0 h]

theorem bind_some_opt {α β : Type} (a : α) (f : α → Option β) :
    (some a >>= f) = f a := rfl

theorem allM_eq_all {α : Type} (f : α → Option Bool) (g : α → Bool) :
    ∀ l : List α, (∀ x ∈ l, f x = some (g x)) → l.allM f = some (l.all g)
  | [], _ => rfl
  | a :: t, h => by
    rw [List.allM, h a (List.mem_cons_self a t)]
    cases hg : g a with
    | false =>
      show some false = some ((a :: t).all g)
      simp [List.all_cons, hg]
    | true =>
      show List.allM f t = some ((a :: t).all g)
      rw [allM_eq_all f g t fun x hx => h x (List.mem_cons_of_mem a hx)]
      simp [List.all_cons, hg]

theorem vertOkC_eq (data : List Nat) (pxRow i j : Nat) :
    vertOkC data pxRow i j = some (vertOk data pxRow i j) := by
  unfold vertOkC vertOk
  dsimp only
  by_cases hb : data.length ≤ i + j * pxRow + 2
  · rw [if_pos hb]
    have hd : decide (i + j * pxRow + 2 < data.length) = false :=
      decide_eq_false (by omega)
    rw [hd, Bool.false_and, Bool.false_and, Bool.false_and]
  · rw [if_neg hb,
      getElem?_eq_getD (show i + j * pxRow < data.length by omega),
      getElem?_eq_getD (show i + j * pxRow + 1 < data.length by omega),
      getElem?_eq_getD (show i + j * pxRow + 2 < data.length by omega)]
    simp only [bind_some_opt]
    rw [decide_eq_true (show i + j * pxRow + 2 < data.length by omega),
      Bool.true_and]
    rfl

theorem leftOkC_eq (data : List Nat) (pxRow i j : Nat) :
    leftOkC data pxRow i j = some (leftOk data pxRow i j) := by
  unfold leftOkC leftOk
  dsimp only
  by_cases hu : i + j * pxRow < pxForCol
  · rw [if_pos hu]
    have hd : decide (pxForCol ≤ i + j * pxRow) = false := decide_eq_false (by omega)
    rw [hd, Bool.false_and]
  · rw [if_neg hu]
    have hd : decide (pxForCol ≤ i + j * pxRow) = true := decide_eq_true (by omega)
    rw [hd, Bool.true_and]
    by_cases hb : data.length ≤ i + j * pxRow - pxForCol + 2
    · rw [if_pos hb]
      have hd2 : decide (i + j * pxRow - pxForCol + 2 < data.length) = false :=
        decide_eq_false (by omega)
      rw [hd2, Bool.false_and, Bool.false_and, Bool.false_and]
    · rw [if_neg hb,
        getElem?_eq_getD (show i + j * pxRow - pxForCol < data.length by omega),
        getElem?_eq_getD (show i + j * pxRow - pxForCol + 1 < data.length by omega),
        getElem?_eq_getD (show i + j * pxRow - pxForCol + 2 < data.length by omega)]
      simp only [bind_some_opt]
      rw [decide_eq_true (show i + j * pxRow - pxForCol + 2 < data.length by omega),
        Bool.true_and]
      rfl

theorem isMarkerAtC_eq (data : List Nat) (pxRow i : Nat) :
    isMarkerAtC data pxRow i = some (isMarkerAt data pxRow i) := by
  unfold isMarkerAtC isMarkerAt
  by_cases h1 : data.length ≤ i + 2
  · rw [if_pos h1, if_pos h1]
  · rw [if_neg h1, if_neg h1,
      getElem?_eq_getD (show i < data.length by omega),
      getElem?_eq_getD (show i + 1 < data.length by omega),
      getElem?_eq_getD (show i + 2 < data.length by omega)]
    simp only [bind_some_opt]
    by_cases hb : limMax ≤ data.getD i 0 ∧ limMax ≤ data.getD (i + 1) 0 ∧
        limMax ≤ data.getD (i + 2) 0
    · rw [if_pos (by
          rw [decide_eq_true hb.1, decide_eq_true hb.2.1, decide_eq_true hb.2.2,
            Bool.true_and, Bool.true_and]),
        if_neg (not_not_intro hb)]
      by_cases h2 : data.length ≤ i + pxForCol + 2
      · rw [if_pos h2, if_pos h2]
        rfl
      · rw [if_neg h2, if_neg h2,
          getElem?_eq_getD (show i + pxForCol < data.length by omega),
          getElem?_eq_getD (show i + pxForCol + 1 < data.length by omega),
          getElem?_eq_getD (show i + pxForCol + 2 < data.length by omega)]
        simp only [bind_some_opt]
        by_cases hr : limMin ≤ data.getD (i + pxForCol) 0 ∨
            limMin ≤ data.getD (i + pxForCol + 1) 0 ∨
            limMin ≤ data.getD (i + pxForCol + 2) 0
        · rw [if_pos ?hcond, if_pos hr]
          · rfl
          case hcond =>
            rcases hr with hr | hr | hr
            · rw [decide_eq_true hr, Bool.true_or, Bool.true_or]
            · rw [decide_eq_true hr, Bool.or_true, Bool.true_or]
            · rw [decide_eq_true hr, Bool.or_true]
        · rw [if_neg (by
              simp only [Bool.or_eq_true, decide_eq_true_eq, or_assoc]
              exact hr),
            if_neg hr]
          rw [allM_eq_all (vertOkC data pxRow i) (vertOk data pxRow i) _
            (fun x _ => vertOkC_eq data pxRow i x)]
          simp only [bind_some_opt]
          by_cases hv : validVertical data pxRow i
          · rw [if_neg (not_not_intro hv)]
            unfold validVertical at hv
            rw [hv, if_pos rfl]
            rw [allM_eq_all (leftOkC data pxRow i) (leftOk data pxRow i) _
              (fun x _ => leftOkC_eq data pxRow i x)]
            by_cases hl : validLeft data pxRow i
            · rw [if_neg (not_not_intro hl)]
              unfold validLeft at hl
              rw [hl]
            · rw [if_pos hl]
              unfold validLeft at hl
              rw [Bool.eq_false_iff.mpr hl]
          · unfold validVertical at hv
            rw [Bool.eq_false_iff.mpr hv, if_neg (by simp),
              if_pos (by unfold validVertical; exact hv)]
            rfl
    · rw [if_neg (by
          simp only [Bool.and_eq_true, decide_eq_true_eq, and_assoc]
          exact hb),
        if_pos hb]
      rfl

theorem findPosLoopC_eq (data : List Nat) (pxRow limit : Nat) (hpx : pxRow ≠ 0) :
    ∀ (fuel i : Nat),
      findPosLoopC data pxRow limit fuel i =
        some (findPosLoop data pxRow limit fuel i)
  | 0, _ => rfl
  | fuel + 1, i => by
    rw [findPosLoopC, findPosLoop]
    by_cases hlt : i < limit
    · rw [if_pos hlt, if_pos hlt, isMarkerAtC_eq]
      cases hm : isMarkerAt data pxRow i with
      | true => rw [if_pos rfl, if_neg hpx]
      | false =>
        rw [if_neg Bool.false_ne_true]
        exact findPosLoopC_eq data pxRow limit hpx fuel (i + 4)
    · rw [if_neg hlt, if_neg hlt]

/-- C10: for every byte buffer and every `width ≥ 1` (which the caller
`read_next_frame` guarantees by returning early on zero dimensions), the
checked interpretation of `find_position` — where all slice indexing, the
underflow-guarded subtraction, the saturating scan limit, and the final
modulo/division by the row stride are made explicit — completes without any
panic and computes exactly what the total model computes. -/
theorem C10_no_panic (data : List Nat) (width hgt : Nat) (hw : 0 < width) :
    find_positionC data width hgt = some (find_position data width hgt) := by
  unfold find_positionC find_position
  exact findPosLoopC_eq data (width * 4) _ (by omega) _ 0

/-- Witness for C10 on a concrete frame: the checked run on the 12×34 marker
buffer panics nowhere and returns the detector's answer. -/
theorem C10_no_panic_witness :
    find_positionC (mkColBuf 12 34 10) 12 34 =
      some (find_position (mkColBuf 12 34 10) 12 34) :=
  C10_no_panic (mkColBuf 12 34 10) 12 34 (by decide)


